import Mathlib

/-!
Shallow embedding of the slot allocator in `src/arena.rs` of the `itree`
repository, together with theorems settling the claims about it.

Rust `Vec<Cell<T>>` is modelled as `List (Cell T)`, `usize` as `Nat` with
checked (debug-mode) arithmetic: a `usize` subtraction that underflows is
modelled as a panic with the message Rust prints in that case.  A `panic!`
is modelled by the `Res.abort` outcome carrying the panic message, and a
non-terminating recursion by `Res.diverge` (the recursive free-list walk is
run with fuel `data.length + 1`; a walk that takes more steps than that must
revisit an index, and since the walk is deterministic it then never
terminates, so fuel exhaustion coincides with real non-termination).
-/

namespace ITree

/-- Rust: `enum Cell<T> { Just(T), Nothing(Option<usize>) }`.  A slot of the
arena: `Just v` is an occupied slot, `Nothing link` a free slot holding the
optional index of the next free slot. -/
inductive Cell (T : Type) where
  | Just : T → Cell T
  | Nothing : Option Nat → Cell T
deriving DecidableEq, Repr

/-- Rust: `pub struct Arena<T> { data: Vec<Cell<T>>, head: Option<usize>, len: usize }`. -/
structure Arena (T : Type) where
  data : List (Cell T)
  head : Option Nat
  len : Nat
deriving DecidableEq, Repr

/-- Rust: `pub struct Handle(usize)`. -/
structure Handle where
  idx : Nat
deriving DecidableEq, Repr

/-- Outcome of running a piece of Rust code: a normal return, a panic with
its message, or non-termination. -/
inductive Res (α : Type) where
  | ok : α → Res α
  | abort : String → Res α
  | diverge : Res α
deriving DecidableEq, Repr

variable {T : Type}

namespace Arena

/-- Rust: `pub fn new() -> Self { Arena { data: Vec::new(), head: None, len: 0 } }`. -/
def new : Arena T := ⟨[], none, 0⟩

/-- Rust: `pub fn capacity(&self) -> usize { self.data.len() }`. -/
def capacity (a : Arena T) : Nat := a.data.length

/-- Rust: `pub fn is_empty(&self) -> bool { self.len == 0 }`. -/
def isEmpty (a : Arena T) : Bool := a.len == 0

/-- Number of slots of the arena currently holding a value (the number of
`Just` cells).  This is the "occupied count" the specification speaks about;
the code's `len()` accessor returns the `len` field instead. -/
def occupiedCount (a : Arena T) : Nat :=
  a.data.countP (fun c => match c with | Cell.Just _ => true | Cell.Nothing _ => false)

/-- Rust: the inner recursive function `aux` of `find_last_available`,
made total with explicit fuel (`Res.diverge` on fuel exhaustion):
`match data.get(indx) { Some(Cell::Just(_)) | None => panic!("corrpt arena"),
Some(Cell::Nothing(next_head)) => match next_head { Some(n) => aux(data, *n),
None => Some(indx) } }`. -/
def flaAux (data : List (Cell T)) : Nat → Nat → Res Nat
  | 0, _ => Res.diverge
  | fuel + 1, indx =>
    match data[indx]? with
    | some (Cell.Just _) => Res.abort "corrpt arena"
    | none => Res.abort "corrpt arena"
    | some (Cell.Nothing (some n)) => flaAux data fuel n
    | some (Cell.Nothing none) => Res.ok indx

/-- Rust: `fn find_last_available(&self) -> Option<usize>`: walk the free
list from `head` to its last slot.  Fuel `data.length + 1` is enough for any
terminating walk (see the module comment). -/
def find_last_available (a : Arena T) : Res (Option Nat) :=
  match a.head with
  | none => Res.ok none
  | some head =>
    match flaAux a.data (a.data.length + 1) head with
    | Res.ok i => Res.ok (some i)
    | Res.abort m => Res.abort m
    | Res.diverge => Res.diverge

/-- The cells pushed by the loop of `allocate`: for cell count
`count = additional - 1`, the cells `Nothing(Some(first+1)), …,
Nothing(Some(first+count))` followed by the final `Nothing(None)` push. -/
def newCells (first count : Nat) : List (Cell T) :=
  (List.range' (first + 1) count).map (fun i => Cell.Nothing (some i))
    ++ [Cell.Nothing none]

/-- Rust: `fn allocate(&mut self, additional: usize)`.  `reserve_exact` only
affects the `Vec`'s spare capacity, not its contents, so it has no observable
effect here.  The loop
`for i in (first_new_cell_indx + 1..).take(additional - 1)` pushes the cells
`newCells first_new_cell_indx (additional - 1)`; the subtraction
`additional - 1` underflows when `additional == 0`, which panics under
checked `usize` arithmetic. -/
def allocate (a : Arena T) (additional : Nat) : Res (Arena T) :=
  let first_new_cell_indx := a.data.length
  match find_last_available a with
  | Res.abort m => Res.abort m
  | Res.diverge => Res.diverge
  | Res.ok r =>
    let a1 : Arena T :=
      match r with
      | some n => { a with data := a.data.set n (Cell.Nothing (some first_new_cell_indx)) }
      | none => { a with head := some first_new_cell_indx }
    match additional with
    | 0 => Res.abort "attempt to subtract with overflow"
    | _ + 1 =>
      Res.ok { a1 with data := a1.data ++ newCells first_new_cell_indx (additional - 1) }

/-- Rust: `pub fn insert(&mut self, data: T) -> Handle`, with the tail
recursion made total by fuel.  The `None` branch runs
`self.allocate(self.len)` and retries; the `Some` branch pops the free-list
head, panicking with "corrupt arena" if that slot is occupied or out of
bounds.  Note that `insert` never changes the `len` field. -/
def insertGo (v : T) : Nat → Arena T → Res (Arena T × Handle)
  | 0, _ => Res.diverge
  | fuel + 1, a =>
    match a.head with
    | none =>
      match a.allocate a.len with
      | Res.abort m => Res.abort m
      | Res.diverge => Res.diverge
      | Res.ok a1 => insertGo v fuel a1
    | some indx =>
      match a.data[indx]? with
      | some (Cell.Just _) => Res.abort "corrupt arena"
      | none => Res.abort "corrupt arena"
      | some (Cell.Nothing next_head) =>
        Res.ok ({ a with head := next_head, data := a.data.set indx (Cell.Just v) }, ⟨indx⟩)

/-- Rust `insert`.  Fuel 2 is exact: the recursion in the source has depth at
most 2, because a successful `allocate` always leaves `head = Some _`
pointing at a `Nothing` cell, so the retry takes the `Some` branch. -/
def insert (a : Arena T) (v : T) : Res (Arena T × Handle) :=
  insertGo v 2 a

/-- Rust: `pub fn remove(&mut self, handle: Handle) -> Option<T>`: if the
slot is occupied, `mem::swap` a `Nothing(self.head)` cell into it, point
`head` at the slot, and return the swapped-out value; otherwise return
`None`.  The final `match` on the swapped-out cell `x` is kept from the
source; its `Nothing` arm is the unreachable
`panic!("something is wrong with the code")`. -/
def remove (a : Arena T) (handle : Handle) : Res (Option T × Arena T) :=
  match a.data[handle.idx]? with
  | none => Res.ok (none, a)
  | some (Cell.Nothing _) => Res.ok (none, a)
  | some (Cell.Just d) =>
    let x : Cell T := Cell.Just d
    let a1 : Arena T :=
      { a with data := a.data.set handle.idx (Cell.Nothing a.head), head := some handle.idx }
    match x with
    | Cell.Just data => Res.ok (some data, a1)
    | Cell.Nothing _ => Res.abort "something is wrong with the code"

/-- Rust: `pub fn get(&self, handle: Handle) -> Option<&T>` (value returned
through the reference). -/
def get (a : Arena T) (handle : Handle) : Option T :=
  match a.data[handle.idx]? with
  | none => none
  | some (Cell.Nothing _) => none
  | some (Cell.Just data) => some data

/-- Rust: `pub fn get_mut(&mut self, handle: Handle) -> Option<&mut T>`
(value the mutable reference points at). -/
def get_mut (a : Arena T) (handle : Handle) : Option T :=
  match a.data[handle.idx]? with
  | none => none
  | some (Cell.Nothing _) => none
  | some (Cell.Just data) => some data

/-- The state transition of one `remove` call, with the returned value
discarded (`remove` never panics, see `remove_free`/`remove_occ`). -/
def remove1 (a : Arena T) (h : Nat) : Arena T :=
  match a.data[h]? with
  | none => a
  | some (Cell.Nothing _) => a
  | some (Cell.Just _) =>
    { a with data := a.data.set h (Cell.Nothing a.head), head := some h }

/-- Driver loop: call `remove` on each handle of `hs` in order. -/
def removeSeq : Arena T → List Nat → Res (Arena T)
  | a, [] => Res.ok a
  | a, h :: hs =>
    match remove a ⟨h⟩ with
    | Res.ok (_, a1) => removeSeq a1 hs
    | Res.abort m => Res.abort m
    | Res.diverge => Res.diverge

/-- Driver loop: `insert` each value of `vs` in order, collecting the
returned handles. -/
def insertSeq : Arena T → List T → Res (Arena T × List Handle)
  | a, [] => Res.ok (a, [])
  | a, v :: vs =>
    match insert a v with
    | Res.ok (a1, tok) =>
      match insertSeq a1 vs with
      | Res.ok (a2, toks) => Res.ok (a2, tok :: toks)
      | Res.abort m => Res.abort m
      | Res.diverge => Res.diverge
    | Res.abort m => Res.abort m
    | Res.diverge => Res.diverge

/-- Slot `n` of the arena is inside the store bounds and free. -/
def slotIsFree (a : Arena T) (n : Nat) : Prop :=
  ∃ l, a.data[n]? = some (Cell.Nothing l)

/-- The free-list invariant of the specification: the head link and the link
of every free slot point at a free slot inside the store bounds. -/
def FreeListInv (a : Arena T) : Prop :=
  (∀ n : Nat, a.head = some n → slotIsFree a n) ∧
  (∀ i l : Nat, a.data[i]? = some (Cell.Nothing (some l)) → slotIsFree a l)

end Arena

/-- `IsChain data o l`: starting from the link `o`, the free-list links
traverse exactly the indices of `l` and end in an empty link.  This is the
specification's "acyclic singly linked list terminated by an empty link"
(acyclicity is a consequence: such a finite witness forbids revisiting an
index, see `IsChain.nodup`). -/
inductive IsChain (data : List (Cell T)) : Option Nat → List Nat → Prop where
  | nil : IsChain data none []
  | cons {i : Nat} {next : Option Nat} {rest : List Nat} :
      data[i]? = some (Cell.Nothing next) → IsChain data next rest →
      IsChain data (some i) (i :: rest)

namespace Arena

/-- Helper: `remove` on a free or out-of-range slot returns `None` and does
not change the arena at all. -/
theorem remove_free (a : Arena T) (h : Handle)
    (hfree : a.data[h.idx]? = none ∨ ∃ l, a.data[h.idx]? = some (Cell.Nothing l)) :
    remove a h = Res.ok (none, a) := by
  unfold remove
  rcases hfree with hf | ⟨l, hf⟩ <;> rw [hf]

/-- Helper: `remove` on an occupied slot returns the stored value, makes the
slot the new free-list head and leaves everything else unchanged. -/
theorem remove_occ (a : Arena T) (h : Handle) (v : T)
    (hocc : a.data[h.idx]? = some (Cell.Just v)) :
    remove a h = Res.ok (some v,
      { a with data := a.data.set h.idx (Cell.Nothing a.head), head := some h.idx }) := by
  unfold remove
  rw [hocc]

/-- Helper: inversion of a successful value-returning `remove`. -/
theorem remove_ok_some (a a1 : Arena T) (h : Handle) (v : T)
    (he : remove a h = Res.ok (some v, a1)) :
    a.data[h.idx]? = some (Cell.Just v) ∧
      a1 = { a with data := a.data.set h.idx (Cell.Nothing a.head), head := some h.idx } := by
  rcases hc : a.data[h.idx]? with _ | c
  · rw [remove_free a h (Or.inl hc)] at he
    simp at he
  · cases c with
    | Nothing l =>
      rw [remove_free a h (Or.inr ⟨l, hc⟩)] at he
      simp at he
    | Just w =>
      rw [remove_occ a h w hc] at he
      simp only [Res.ok.injEq, Prod.mk.injEq, Option.some.injEq] at he
      obtain ⟨hv, ha⟩ := he
      subst hv
      exact ⟨rfl, ha.symm⟩

/-- Helper: `get` and `get_mut` return `None` on a free or out-of-range
slot. -/
theorem get_free (a : Arena T) (h : Handle)
    (hfree : a.data[h.idx]? = none ∨ ∃ l, a.data[h.idx]? = some (Cell.Nothing l)) :
    get a h = none ∧ get_mut a h = none := by
  unfold get get_mut
  rcases hfree with hf | ⟨l, hf⟩ <;> rw [hf] <;> exact ⟨rfl, rfl⟩

/-- Helper: when the free-list head points at a free slot, `insert` occupies
that slot and pops it off the free list. -/
theorem insert_head_free (a : Arena T) (v : T) (i : Nat) (nh : Option Nat)
    (hh : a.head = some i) (hc : a.data[i]? = some (Cell.Nothing nh)) :
    insert a v
      = Res.ok ({ a with head := nh, data := a.data.set i (Cell.Just v) }, ⟨i⟩) := by
  unfold insert insertGo
  rw [hh]
  simp only [hc]

/-- Claim C1: the claim states that `insert` succeeds on every arena, in
particular on a freshly created empty one.  It does not: on `Arena::new()`
the free list is empty, `insert` calls `allocate(self.len)` with
`self.len = 0`, and `allocate` evaluates `additional - 1`, a `usize`
underflow, so the very first insertion panics instead of growing the store
and succeeding. -/
theorem claim_C1 :
    insert (Arena.new : Arena Nat) 0 = Res.abort "attempt to subtract with overflow" := rfl

/-- Claim C2: the claim states that after any insert/remove sequence from a
new arena `len()` equals the number of occupied slots.  The code never
updates the `len` field: on an arena with one free slot, `insert` succeeds,
one slot is occupied, yet `len` is still `0` (and from a new arena the very
first insert already panics, see `claim_C1`). -/
theorem claim_C2 :
    insert (⟨[Cell.Nothing none], some 0, 0⟩ : Arena Nat) 5
        = Res.ok (⟨[Cell.Just 5], none, 0⟩, ⟨0⟩) ∧
      (⟨[Cell.Just 5], none, 0⟩ : Arena Nat).len = 0 ∧
      occupiedCount (⟨[Cell.Just 5], none, 0⟩ : Arena Nat) = 1 :=
  ⟨rfl, rfl, rfl⟩

/-- Claim C3: `remove` on an occupied slot returns the stored value and
pushes the slot onto the head of the free list; on an already-free or
out-of-range slot it returns `None` without raising any error. -/
theorem claim_C3 (a : Arena T) (h : Handle) :
    (∀ v, a.data[h.idx]? = some (Cell.Just v) →
      remove a h = Res.ok (some v,
        { a with data := a.data.set h.idx (Cell.Nothing a.head), head := some h.idx })) ∧
    ((a.data[h.idx]? = none ∨ ∃ l, a.data[h.idx]? = some (Cell.Nothing l)) →
      remove a h = Res.ok (none, a)) :=
  ⟨fun v hv => remove_occ a h v hv, fun hf => remove_free a h hf⟩

/-- Witness for C3 on concrete arenas: an occupied slot and an out-of-range
handle. -/
theorem claim_C3_witness :
    remove (⟨[Cell.Just 3], none, 0⟩ : Arena Nat) ⟨0⟩
        = Res.ok (some 3, ⟨[Cell.Nothing none], some 0, 0⟩) ∧
      remove (⟨[Cell.Just 3], none, 0⟩ : Arena Nat) ⟨7⟩
        = Res.ok (none, ⟨[Cell.Just 3], none, 0⟩) :=
  ⟨(claim_C3 (⟨[Cell.Just 3], none, 0⟩ : Arena Nat) ⟨0⟩).1 3 rfl,
   (claim_C3 (⟨[Cell.Just 3], none, 0⟩ : Arena Nat) ⟨7⟩).2 (Or.inl rfl)⟩

/-- Claim C4: `get` and `get_mut` return `None` on a handle whose slot has
just been released (the slot holds a free-list link, not a stale value) and
on any out-of-range handle. -/
theorem claim_C4 (a a1 : Arena T) (h : Handle) (v : T) :
    (remove a h = Res.ok (some v, a1) → get a1 h = none ∧ get_mut a1 h = none) ∧
    (a.capacity ≤ h.idx → get a h = none ∧ get_mut a h = none) := by
  constructor
  · intro he
    obtain ⟨hocc, ha1⟩ := remove_ok_some a a1 h v he
    have hlt : h.idx < a.data.length := (List.getElem?_eq_some.mp hocc).1
    subst ha1
    apply get_free
    refine Or.inr ⟨a.head, ?_⟩
    show (a.data.set h.idx (Cell.Nothing a.head))[h.idx]? = some (Cell.Nothing a.head)
    rw [List.getElem?_set]
    simp [hlt]
  · intro hle
    exact get_free a h (Or.inl (List.getElem?_eq_none hle))

/-- Witness for C4: releasing the only slot of a one-slot arena makes `get`
and `get_mut` return `None`, as does an out-of-range handle on that arena. -/
theorem claim_C4_witness :
    (get (⟨[Cell.Nothing none], some 0, 0⟩ : Arena Nat) ⟨0⟩ = none ∧
      get_mut (⟨[Cell.Nothing none], some 0, 0⟩ : Arena Nat) ⟨0⟩ = none) ∧
    (get (⟨[Cell.Just 3], none, 0⟩ : Arena Nat) ⟨2⟩ = none ∧
      get_mut (⟨[Cell.Just 3], none, 0⟩ : Arena Nat) ⟨2⟩ = none) :=
  ⟨(claim_C4 (⟨[Cell.Just 3], none, 0⟩ : Arena Nat) _ ⟨0⟩ 3).1 rfl,
   (claim_C4 (⟨[Cell.Just 3], none, 0⟩ : Arena Nat) (⟨[Cell.Just 3], none, 0⟩ : Arena Nat)
     ⟨2⟩ 3).2 (by decide)⟩

/-- Claim C5: most-recently-freed-first reuse.  If `remove` succeeds on
handle `h`, the next `insert` (of any value) returns a handle with the same
slot index. -/
theorem claim_C5 (a a1 : Arena T) (h : Handle) (v w : T)
    (he : remove a h = Res.ok (some v, a1)) :
    ∃ a2, insert a1 w = Res.ok (a2, h) := by
  obtain ⟨hocc, ha1⟩ := remove_ok_some a a1 h v he
  have hlt : h.idx < a.data.length := (List.getElem?_eq_some.mp hocc).1
  subst ha1
  have hget : (a.data.set h.idx (Cell.Nothing a.head))[h.idx]? =
      some (Cell.Nothing a.head) := by
    rw [List.getElem?_set]
    simp [hlt]
  exact ⟨_, insert_head_free _ w h.idx a.head rfl hget⟩

/-- Witness for C5: removing the single occupant of a one-slot arena and
inserting again hands back the same slot index 0. -/
theorem claim_C5_witness :
    ∃ a2, insert (⟨[Cell.Nothing none], some 0, 0⟩ : Arena Nat) 9 = Res.ok (a2, ⟨0⟩) :=
  claim_C5 (⟨[Cell.Just 3], none, 0⟩ : Arena Nat) _ ⟨0⟩ 3 9 rfl

/-- Claim C7: the claim states that when the free list is empty `insert`
grows the store by at least the occupied count and links the new slots into
a chain.  The code grows by the `len` field, which no operation ever
updates: on an arena with one occupied slot, an empty free list and the
(always-zero) `len` field, `insert` panics on the `additional - 1` `usize`
underflow instead of growing the store. -/
theorem claim_C7 :
    insert (⟨[Cell.Just 1], none, 0⟩ : Arena Nat) 2
      = Res.abort "attempt to subtract with overflow" := rfl

/-- Helper: with an empty free list the walk returns immediately. -/
theorem find_last_available_head_none (a : Arena T) (hh : a.head = none) :
    find_last_available a = Res.ok none := by
  unfold find_last_available
  rw [hh]

/-- Helper: `allocate a 0` panics on the `additional - 1` underflow. -/
theorem allocate_zero (a : Arena T) (hh : a.head = none) :
    allocate a 0 = Res.abort "attempt to subtract with overflow" := by
  unfold allocate
  rw [find_last_available_head_none a hh]

/-- Helper: `allocate a (k+1)` with an empty free list points `head` at the
first new cell and appends a chain of `k` linked cells plus a terminal cell
with an empty link. -/
theorem allocate_head_none (a : Arena T) (k : Nat) (hh : a.head = none) :
    allocate a (k + 1) = Res.ok
      { a with head := some a.data.length, data := a.data ++ newCells a.data.length k } := by
  unfold allocate
  rw [find_last_available_head_none a hh]
  simp

/-- Helper: `insert` with an empty free list and `len = 0` panics on the
`usize` underflow in `allocate`. -/
theorem insert_underflow (a : Arena T) (v : T) (hh : a.head = none) (hl : a.len = 0) :
    insert a v = Res.abort "attempt to subtract with overflow" := by
  unfold insert insertGo
  rw [hh, hl, allocate_zero a hh]

/-- Helper: one step of `insertGo` with any remaining fuel pops a free
free-list head. -/
theorem insertGo_succ_free (fuel : Nat) (a : Arena T) (v : T) (i : Nat) (nh : Option Nat)
    (hh : a.head = some i) (hc : a.data[i]? = some (Cell.Nothing nh)) :
    insertGo v (fuel + 1) a
      = Res.ok ({ a with head := nh, data := a.data.set i (Cell.Just v) }, ⟨i⟩) := by
  unfold insertGo
  rw [hh]
  simp only [hc]

/-- Helper: `insert` with an empty free list and `len = k + 1` grows the
store and then succeeds on the retry. -/
theorem newCells_head (first k : Nat) :
    ∃ nh, (newCells first k : List (Cell T))[0]? = some (Cell.Nothing nh) := by
  cases k with
  | zero => exact ⟨none, by simp [newCells]⟩
  | succ k2 => exact ⟨some (first + 1), by simp [newCells, List.range']⟩

/-- Helper: `insert` with an empty free list and `len = k + 1` grows the
store and then succeeds on the retry. -/
theorem insert_grow (a : Arena T) (v : T) (k : Nat) (hh : a.head = none)
    (hl : a.len = k + 1) :
    ∃ p, insert a v = Res.ok p := by
  obtain ⟨d, hd, ln⟩ := a
  change hd = none at hh
  change ln = k + 1 at hl
  subst hh
  subst hl
  obtain ⟨nh, hc0⟩ := newCells_head (T := T) d.length k
  have hc2 : (d ++ newCells d.length k)[d.length]? = some (Cell.Nothing nh) := by
    rw [List.getElem?_append_right (le_refl _), Nat.sub_self]
    exact hc0
  exact ⟨_, insertGo_succ_free 0 ⟨d ++ newCells d.length k, some d.length, k + 1⟩
    v d.length nh rfl hc2⟩

/-- Helper: the free-list walk panics as soon as it lands on an occupied or
out-of-bounds index. -/
theorem flaAux_bad (data : List (Cell T)) (idx fuel : Nat)
    (hbad : data[idx]? = none ∨ ∃ w, data[idx]? = some (Cell.Just w)) :
    flaAux data (fuel + 1) idx = Res.abort "corrpt arena" := by
  unfold flaAux
  rcases hbad with hb | ⟨w, hb⟩ <;> simp only [hb]

/-- Helper: `insert` panics when the free-list head is occupied or out of
bounds. -/
theorem insert_head_bad (a : Arena T) (v : T) (i : Nat) (hh : a.head = some i)
    (hbad : a.data[i]? = none ∨ ∃ w, a.data[i]? = some (Cell.Just w)) :
    insert a v = Res.abort "corrupt arena" := by
  unfold insert insertGo
  rw [hh]
  rcases hbad with hb | ⟨w, hb⟩ <;> simp only [hb]

/-- Helper: under the link part of the free-list invariant the walk never
panics when started on a free slot. -/
theorem flaAux_ne_abort (data : List (Cell T))
    (hinv : ∀ i l : Nat, data[i]? = some (Cell.Nothing (some l)) →
      ∃ l2, data[l]? = some (Cell.Nothing l2)) :
    ∀ fuel idx, (∃ l0, data[idx]? = some (Cell.Nothing l0)) →
      ∀ m, flaAux data fuel idx ≠ Res.abort m := by
  intro fuel
  induction fuel with
  | zero =>
    intro idx _ m
    simp [flaAux]
  | succ f ih =>
    intro idx hfree m
    obtain ⟨l0, hidx⟩ := hfree
    unfold flaAux
    rw [hidx]
    cases l0 with
    | none => simp
    | some n => exact ih n (hinv idx n hidx) m

/-- Helper: under the free-list invariant `find_last_available` never
panics. -/
theorem find_last_available_ne_abort (a : Arena T) (hinv : FreeListInv a) :
    ∀ m, find_last_available a ≠ Res.abort m := by
  intro m
  unfold find_last_available
  cases hh : a.head with
  | none => simp
  | some n =>
    have hwalk := flaAux_ne_abort a.data (fun i l hl => hinv.2 i l hl)
      (a.data.length + 1) n (hinv.1 n hh)
    cases hres : flaAux a.data (a.data.length + 1) n with
    | ok i => simp [hres]
    | abort m2 => exact absurd hres (by simpa using hwalk m2)
    | diverge => simp [hres]

/-- Claim C8: under the free-list invariant (head and every free-slot link
point at an in-bounds free slot) the fatal-corruption branches are
unreachable: `insert` either succeeds or fails only on the `len`-underflow
panic, and the free-list walk never panics.  Conversely a walk that lands on
an occupied slot or an out-of-bounds index, or an `insert` whose free-list
head is such an index, panics immediately instead of returning a recoverable
result. -/
theorem claim_C8 (a : Arena T) (v : T) :
    (FreeListInv a →
      ((∃ p, insert a v = Res.ok p) ∨
        insert a v = Res.abort "attempt to subtract with overflow") ∧
      (∀ m, find_last_available a ≠ Res.abort m)) ∧
    (∀ i : Nat, a.head = some i →
      (a.data[i]? = none ∨ ∃ w, a.data[i]? = some (Cell.Just w)) →
      insert a v = Res.abort "corrupt arena") ∧
    (∀ idx fuel : Nat,
      (a.data[idx]? = none ∨ ∃ w, a.data[idx]? = some (Cell.Just w)) →
      flaAux a.data (fuel + 1) idx = Res.abort "corrpt arena") := by
  refine ⟨fun hinv => ⟨?_, find_last_available_ne_abort a hinv⟩,
    fun i hh hbad => insert_head_bad a v i hh hbad,
    fun idx fuel hbad => flaAux_bad a.data idx fuel hbad⟩
  cases hh : a.head with
  | some n =>
    obtain ⟨nh, hc⟩ := hinv.1 n hh
    exact Or.inl ⟨_, insert_head_free a v n nh hh hc⟩
  | none =>
    cases hl : a.len with
    | zero => exact Or.inr (insert_underflow a v hh hl)
    | succ k => exact Or.inl (insert_grow a v k hh hl)

/-- Witness for C8: a well-formed one-free-slot arena takes no corruption
panic, while an arena whose head points at an occupied slot panics both in
`insert` and in the free-list walk. -/
theorem claim_C8_witness :
    ((∃ p, insert (⟨[Cell.Nothing none], some 0, 0⟩ : Arena Nat) 7 = Res.ok p) ∨
      insert (⟨[Cell.Nothing none], some 0, 0⟩ : Arena Nat) 7
        = Res.abort "attempt to subtract with overflow") ∧
    insert (⟨[Cell.Just 3], some 0, 0⟩ : Arena Nat) 7 = Res.abort "corrupt arena" ∧
    flaAux (⟨[Cell.Just 3], some 0, 0⟩ : Arena Nat).data 1 0
      = Res.abort "corrpt arena" := by
  have hinv : FreeListInv (⟨[Cell.Nothing none], some 0, 0⟩ : Arena Nat) := by
    constructor
    · intro n hn
      injection hn with h
      subst h
      exact ⟨none, rfl⟩
    · intro i l hl
      cases i with
      | zero => simp at hl
      | succ j => simp at hl
  exact ⟨((claim_C8 (⟨[Cell.Nothing none], some 0, 0⟩ : Arena Nat) 7).1 hinv).1,
    (claim_C8 (⟨[Cell.Just 3], some 0, 0⟩ : Arena Nat) 7).2.1 0 rfl (Or.inr ⟨3, rfl⟩),
    (claim_C8 (⟨[Cell.Just 3], some 0, 0⟩ : Arena Nat) 7).2.2 0 0 (Or.inr ⟨3, rfl⟩)⟩

/-- Helper: `remove1` does nothing on a free or out-of-range slot. -/
theorem remove1_free (a : Arena T) (h : Nat)
    (hf : a.data[h]? = none ∨ ∃ l, a.data[h]? = some (Cell.Nothing l)) :
    remove1 a h = a := by
  unfold remove1
  rcases hf with hf | ⟨l, hf⟩ <;> rw [hf]

/-- Helper: `remove1` on an occupied slot frees it onto the free-list
head. -/
theorem remove1_occ (a : Arena T) (h : Nat) (v : T)
    (hocc : a.data[h]? = some (Cell.Just v)) :
    remove1 a h = { a with data := a.data.set h (Cell.Nothing a.head), head := some h } := by
  unfold remove1
  rw [hocc]

/-- Helper: `remove` never panics and its state transition is `remove1`. -/
theorem remove_eq_remove1 (a : Arena T) (h : Nat) :
    ∃ r, remove a ⟨h⟩ = Res.ok (r, remove1 a h) := by
  rcases hc : a.data[h]? with _ | c
  · rw [remove1_free a h (Or.inl hc), remove_free a ⟨h⟩ (Or.inl hc)]
    exact ⟨none, rfl⟩
  · cases c with
    | Nothing l =>
      rw [remove1_free a h (Or.inr ⟨l, hc⟩), remove_free a ⟨h⟩ (Or.inr ⟨l, hc⟩)]
      exact ⟨none, rfl⟩
    | Just w =>
      rw [remove1_occ a h w hc, remove_occ a ⟨h⟩ w hc]
      exact ⟨some w, rfl⟩

/-- Helper: a removal sequence never panics and folds `remove1` over the
handles. -/
theorem removeSeq_eq_foldl (hs : List Nat) : ∀ a : Arena T,
    removeSeq a hs = Res.ok (hs.foldl remove1 a) := by
  induction hs with
  | nil =>
    intro a
    rfl
  | cons h t ih =>
    intro a
    obtain ⟨r, hr⟩ := remove_eq_remove1 a h
    unfold removeSeq
    rw [hr]
    exact ih (remove1 a h)

/-- Helper: `remove1` preserves the store size. -/
theorem remove1_data_length (a : Arena T) (h : Nat) :
    (remove1 a h).data.length = a.data.length := by
  rcases hc : a.data[h]? with _ | c
  · rw [remove1_free a h (Or.inl hc)]
  · cases c with
    | Nothing l => rw [remove1_free a h (Or.inr ⟨l, hc⟩)]
    | Just w =>
      rw [remove1_occ a h w hc]
      simp

/-- Helper: `remove1` leaves every other slot unchanged. -/
theorem remove1_get_ne (a : Arena T) (h j : Nat) (hne : j ≠ h) :
    (remove1 a h).data[j]? = a.data[j]? := by
  rcases hc : a.data[h]? with _ | c
  · rw [remove1_free a h (Or.inl hc)]
  · cases c with
    | Nothing l => rw [remove1_free a h (Or.inr ⟨l, hc⟩)]
    | Just w =>
      rw [remove1_occ a h w hc]
      exact List.getElem?_set_ne (Ne.symm hne)

/-- Helper: a fold of removals leaves slots outside the handle list
unchanged. -/
theorem foldl_remove1_get_ne (ms : List Nat) : ∀ (a : Arena T) (j : Nat), j ∉ ms →
    (ms.foldl remove1 a).data[j]? = a.data[j]? := by
  induction ms with
  | nil =>
    intro a j _
    rfl
  | cons m t ih =>
    intro a j hj
    have hj1 : j ≠ m := fun he => hj (he ▸ List.mem_cons_self m t)
    have hj2 : j ∉ t := fun hm => hj (List.mem_cons_of_mem m hm)
    show (t.foldl remove1 (remove1 a m)).data[j]? = _
    rw [ih (remove1 a m) j hj2, remove1_get_ne a m j hj1]

/-- Helper: overwriting a slot that a removal does not touch commutes with
the removal. -/
theorem remove1_set_comm (a : Arena T) (m h : Nat) (c : Cell T) (hne : h ≠ m) :
    remove1 ⟨a.data.set h c, a.head, a.len⟩ m
      = ⟨(remove1 a m).data.set h c, (remove1 a m).head, (remove1 a m).len⟩ := by
  rcases hc : a.data[m]? with _ | cm
  · have hc2 : (a.data.set h c)[m]? = none := by
      rw [List.getElem?_set_ne hne]
      exact hc
    rw [remove1_free a m (Or.inl hc)]
    exact remove1_free ⟨a.data.set h c, a.head, a.len⟩ m (Or.inl hc2)
  · cases cm with
    | Nothing l =>
      have hc2 : (a.data.set h c)[m]? = some (Cell.Nothing l) := by
        rw [List.getElem?_set_ne hne]
        exact hc
      rw [remove1_free a m (Or.inr ⟨l, hc⟩)]
      exact remove1_free ⟨a.data.set h c, a.head, a.len⟩ m (Or.inr ⟨l, hc2⟩)
    | Just w =>
      have hc2 : (a.data.set h c)[m]? = some (Cell.Just w) := by
        rw [List.getElem?_set_ne hne]
        exact hc
      rw [remove1_occ a m w hc, remove1_occ ⟨a.data.set h c, a.head, a.len⟩ m w hc2]
      simp [List.set_comm c (Cell.Nothing a.head) a.data hne]

/-- Helper: overwriting a slot outside the removal list commutes with the
whole removal fold. -/
theorem foldl_remove1_set_comm (ms : List Nat) : ∀ (a : Arena T) (h : Nat) (c : Cell T),
    h ∉ ms →
    ms.foldl remove1 ⟨a.data.set h c, a.head, a.len⟩
      = ⟨(ms.foldl remove1 a).data.set h c, (ms.foldl remove1 a).head,
          (ms.foldl remove1 a).len⟩ := by
  induction ms with
  | nil =>
    intro a h c _
    rfl
  | cons m t ih =>
    intro a h c hm
    have h1 : h ≠ m := fun he => hm (he ▸ List.mem_cons_self m t)
    have h2 : h ∉ t := fun ht => hm (List.mem_cons_of_mem m ht)
    show t.foldl remove1 (remove1 ⟨a.data.set h c, a.head, a.len⟩ m) = _
    rw [remove1_set_comm a m h c h1, ih (remove1 a m) h c h2]
    rfl

/-- Helper: one step of a successful insertion sequence. -/
theorem insertSeq_cons_of_ok (a a1 a2 : Arena T) (v : T) (vs : List T) (tok : Handle)
    (toks : List Handle) (h1 : insert a v = Res.ok (a1, tok))
    (h2 : insertSeq a1 vs = Res.ok (a2, toks)) :
    insertSeq a (v :: vs) = Res.ok (a2, tok :: toks) := by
  unfold insertSeq
  simp only [h1, h2]

/-- Helper: the round-trip engine for C6.  Removing the (distinct, occupied)
handles `rs` in reverse order and then inserting `rs.length` fresh values
succeeds, hands back exactly the handles `rs`, restores the free-list head,
keeps the store size, and leaves every slot outside `rs` unchanged. -/
theorem insertSeq_removeSeq (rs : List Nat) : ∀ (a : Arena T) (vs : List T),
    rs.Nodup → (∀ h ∈ rs, ∃ v, a.data[h]? = some (Cell.Just v)) →
    vs.length = rs.length →
    ∃ b, insertSeq (rs.reverse.foldl remove1 a) vs
        = Res.ok (b, rs.map (fun h => (⟨h⟩ : Handle))) ∧
      b.head = a.head ∧ b.data.length = a.data.length ∧
      ∀ j, j ∉ rs → b.data[j]? = a.data[j]? := by
  induction rs with
  | nil =>
    intro a vs _ _ hlen
    have hv : vs = [] := List.length_eq_zero.mp hlen
    subst hv
    exact ⟨a, rfl, rfl, rfl, fun j _ => rfl⟩
  | cons h t ih =>
    intro a vs hnd hocc hlen
    cases vs with
    | nil => simp at hlen
    | cons v vt =>
      have hnd1 : h ∉ t := (List.nodup_cons.mp hnd).1
      have hndt : t.Nodup := (List.nodup_cons.mp hnd).2
      obtain ⟨w, hw⟩ := hocc h (List.mem_cons_self h t)
      have hocct : ∀ h2 ∈ t, ∃ v2, a.data[h2]? = some (Cell.Just v2) :=
        fun h2 hm => hocc h2 (List.mem_cons_of_mem h hm)
      have hlent : vt.length = t.length := by simpa using hlen
      have hrev : (h :: t).reverse.foldl remove1 a
          = remove1 (t.reverse.foldl remove1 a) h := by
        rw [List.reverse_cons, List.foldl_append]
        rfl
      have hs0h : (t.reverse.foldl remove1 a).data[h]? = some (Cell.Just w) := by
        rw [foldl_remove1_get_ne t.reverse a h (fun hm => hnd1 (List.mem_reverse.mp hm))]
        exact hw
      have hlt : h < (t.reverse.foldl remove1 a).data.length :=
        (List.getElem?_eq_some.mp hs0h).1
      have hget : ((t.reverse.foldl remove1 a).data.set h
          (Cell.Nothing (t.reverse.foldl remove1 a).head))[h]?
            = some (Cell.Nothing (t.reverse.foldl remove1 a).head) := by
        rw [List.getElem?_set]
        simpa using hlt
      have hins1 : insert (remove1 (t.reverse.foldl remove1 a) h) v
          = Res.ok (⟨(t.reverse.foldl remove1 a).data.set h (Cell.Just v),
              (t.reverse.foldl remove1 a).head, (t.reverse.foldl remove1 a).len⟩, ⟨h⟩) := by
        rw [remove1_occ (t.reverse.foldl remove1 a) h w hs0h]
        rw [insert_head_free ⟨(t.reverse.foldl remove1 a).data.set h
          (Cell.Nothing (t.reverse.foldl remove1 a).head), some h,
          (t.reverse.foldl remove1 a).len⟩ v h (t.reverse.foldl remove1 a).head rfl hget]
        simp [List.set_set]
      have hocc2 : ∀ h2 ∈ t, ∃ v2,
          (⟨a.data.set h (Cell.Just v), a.head, a.len⟩ : Arena T).data[h2]?
            = some (Cell.Just v2) := by
        intro h2 hm
        obtain ⟨v2, hv2⟩ := hocct h2 hm
        refine ⟨v2, ?_⟩
        show (a.data.set h (Cell.Just v))[h2]? = _
        rw [List.getElem?_set_ne (fun he => hnd1 (by rw [he]; exact hm))]
        exact hv2
      obtain ⟨b, hseq, hbh, hbl, hbj⟩ :=
        ih ⟨a.data.set h (Cell.Just v), a.head, a.len⟩ vt hndt hocc2 hlent
      rw [foldl_remove1_set_comm t.reverse a h (Cell.Just v)
        (fun hm => hnd1 (List.mem_reverse.mp hm))] at hseq
      refine ⟨b, ?_, ?_, ?_, ?_⟩
      · rw [hrev]
        exact insertSeq_cons_of_ok _ _ _ v vt ⟨h⟩ (t.map (fun h2 => (⟨h2⟩ : Handle)))
          hins1 hseq
      · exact hbh
      · rw [hbl]
        simp
      · intro j hj
        have hj1 : j ∉ t := fun hm => hj (List.mem_cons_of_mem h hm)
        have hj2 : j ≠ h := fun he => hj (he ▸ List.mem_cons_self h t)
        rw [hbj j hj1]
        show (a.data.set h (Cell.Just v))[j]? = a.data[j]?
        exact List.getElem?_set_ne (Ne.symm hj2)

/-- Claim C6: for an arena holding `hs.length` values in the (distinct)
slots `hs` — all of its occupied slots — removing all of them in any order
`hs` and then inserting as many new values succeeds, hands back exactly the
previously freed slots (in most-recently-freed-first order `hs.reverse`),
and leaves the capacity unchanged: no growth of the backing store occurs. -/
theorem claim_C6 (a : Arena T) (hs : List Nat) (vs : List T)
    (hnd : hs.Nodup)
    (hocc : ∀ h ∈ hs, ∃ v, a.data[h]? = some (Cell.Just v))
    (_hall : occupiedCount a = hs.length)
    (hlen : vs.length = hs.length) :
    ∃ a1 b, removeSeq a hs = Res.ok a1 ∧
      insertSeq a1 vs = Res.ok (b, hs.reverse.map (fun h => (⟨h⟩ : Handle))) ∧
      (∀ tok ∈ hs.reverse.map (fun h => (⟨h⟩ : Handle)), tok.idx ∈ hs) ∧
      b.capacity = a.capacity := by
  have hnd2 : hs.reverse.Nodup := List.nodup_reverse.mpr hnd
  have hocc2 : ∀ h ∈ hs.reverse, ∃ v, a.data[h]? = some (Cell.Just v) :=
    fun h hm => hocc h (List.mem_reverse.mp hm)
  have hlen2 : vs.length = hs.reverse.length := by simpa using hlen
  obtain ⟨b, hseq, hbh, hbl, hbj⟩ := insertSeq_removeSeq hs.reverse a vs hnd2 hocc2 hlen2
  rw [List.reverse_reverse] at hseq
  refine ⟨hs.foldl remove1 a, b, removeSeq_eq_foldl hs a, hseq, ?_, hbl⟩
  intro tok hm
  obtain ⟨h2, hh2, heq⟩ := List.mem_map.mp hm
  cases heq
  exact List.mem_reverse.mp hh2

/-- Witness for C6: a full two-slot arena; removing slots 0 then 1 and
inserting two new values reuses slots 1 then 0 and keeps capacity 2. -/
theorem claim_C6_witness :
    ∃ a1 b, removeSeq (⟨[Cell.Just 1, Cell.Just 2], none, 2⟩ : Arena Nat) [0, 1]
        = Res.ok a1 ∧
      insertSeq a1 [10, 20]
        = Res.ok (b, ([0, 1] : List Nat).reverse.map (fun h => (⟨h⟩ : Handle))) ∧
      (∀ tok ∈ ([0, 1] : List Nat).reverse.map (fun h => (⟨h⟩ : Handle)),
        tok.idx ∈ ([0, 1] : List Nat)) ∧
      b.capacity = (⟨[Cell.Just 1, Cell.Just 2], none, 2⟩ : Arena Nat).capacity := by
  refine claim_C6 (⟨[Cell.Just 1, Cell.Just 2], none, 2⟩ : Arena Nat) [0, 1] [10, 20]
    (by decide) ?_ rfl rfl
  intro h hm
  rcases List.mem_cons.mp hm with rfl | hm2
  · exact ⟨1, rfl⟩
  · rcases List.mem_cons.mp hm2 with rfl | hm3
    · exact ⟨2, rfl⟩
    · cases hm3

/-- Helper: the walk of the free-list links is deterministic, so at most one
chain starts at a given link. -/
theorem IsChain_det (data : List (Cell T)) {o : Option Nat} {l1 : List Nat}
    (h1 : IsChain data o l1) :
    ∀ {l2 : List Nat}, IsChain data o l2 → l1 = l2 := by
  induction h1 with
  | nil =>
    intro l2 h2
    cases h2
    rfl
  | cons hc hrest ih =>
    intro l2 h2
    cases h2 with
    | cons hc2 hrest2 =>
      have hnext := hc.symm.trans hc2
      injection hnext with hnext2
      injection hnext2 with hnext3
      cases hnext3
      rw [ih hrest2]

/-- Helper: every member of a chain starts a chain of its own, no longer
than the original. -/
theorem IsChain_suffix (data : List (Cell T)) {o : Option Nat} {l : List Nat}
    (h : IsChain data o l) :
    ∀ x ∈ l, ∃ s, IsChain data (some x) s ∧ s.length ≤ l.length := by
  induction h with
  | nil =>
    intro x hx
    cases hx
  | cons hc hrest ih =>
    intro x hx
    rcases List.mem_cons.mp hx with rfl | hx2
    · exact ⟨_, IsChain.cons hc hrest, le_refl _⟩
    · obtain ⟨s, hs, hlen⟩ := ih x hx2
      exact ⟨s, hs, hlen.trans (Nat.le_succ _)⟩

/-- Helper: a chain never revisits an index (this is the "no cycles" part of
the specification, derived rather than assumed). -/
theorem IsChain_nodup (data : List (Cell T)) {o : Option Nat} {l : List Nat}
    (h : IsChain data o l) : l.Nodup := by
  induction h with
  | nil => exact List.nodup_nil
  | cons hc hrest ih =>
    refine List.nodup_cons.mpr ⟨?_, ih⟩
    intro hmem
    obtain ⟨s, hs, hlen⟩ := IsChain_suffix data hrest _ hmem
    have heq := IsChain_det data (IsChain.cons hc hrest) hs
    rw [← heq] at hlen
    simp at hlen

/-- Helper: every index of a chain is inside the store bounds. -/
theorem IsChain_mem_lt (data : List (Cell T)) {o : Option Nat} {l : List Nat}
    (h : IsChain data o l) :
    ∀ x ∈ l, x < data.length := by
  induction h with
  | nil =>
    intro x hx
    cases hx
  | cons hc hrest ih =>
    intro x hx
    rcases List.mem_cons.mp hx with rfl | hx2
    · exact (List.getElem?_eq_some.mp hc).1
    · exact ih x hx2

/-- Helper: a chain is no longer than the store, so the walk's fuel of
`data.length + 1` is always sufficient. -/
theorem IsChain_length_le (data : List (Cell T)) {o : Option Nat} {l : List Nat}
    (h : IsChain data o l) :
    l.length ≤ data.length := by
  have hnd := IsChain_nodup data h
  have hlt := IsChain_mem_lt data h
  have h1 : l.toFinset.card = l.length := List.toFinset_card_of_nodup hnd
  have h2 : l.toFinset ⊆ Finset.range data.length := fun x hx =>
    Finset.mem_range.mpr (hlt x (List.mem_toFinset.mp hx))
  have h3 := Finset.card_le_card h2
  rw [h1, Finset.card_range] at h3
  exact h3

/-- Helper: with enough fuel the walk along a chain terminates and returns
the last index of the chain (the slot whose link is empty). -/
theorem flaAux_chain (data : List (Cell T)) {o : Option Nat} {l : List Nat}
    (h : IsChain data o l) :
    ∀ fuel, l.length ≤ fuel → ∀ i, o = some i →
      ∃ j, flaAux data fuel i = Res.ok j ∧ l.getLast? = some j := by
  induction h with
  | nil =>
    intro fuel _ i hi
    exact absurd hi (by simp)
  | cons hc hrest ih =>
    intro fuel hfuel i0 hi0
    injection hi0 with hi1
    cases hi1
    cases fuel with
    | zero => exact absurd hfuel (by simp)
    | succ f =>
      rename_i i next rest
      cases next with
      | none =>
        cases hrest
        refine ⟨i, ?_, rfl⟩
        unfold flaAux
        rw [hc]
      | some n =>
        obtain ⟨j, hj, hlast⟩ := ih f (by simp at hfuel; omega) n rfl
        refine ⟨j, ?_, ?_⟩
        · unfold flaAux
          rw [hc]
          exact hj
        · cases hrest with
          | cons hc2 hrest2 =>
            rw [List.getLast?_cons_cons]
            exact hlast

/-- Claim C9: for an arena whose free slots form a finite singly linked
chain from `head` terminated by an empty link, `find_last_available`
terminates (it neither diverges nor panics) and returns the last index of
the chain — the slot whose link is empty — or `None` for an empty chain. -/
theorem claim_C9 (a : Arena T) (chain : List Nat)
    (hc : IsChain a.data a.head chain) :
    find_last_available a = Res.ok chain.getLast? := by
  obtain ⟨d, hd, ln⟩ := a
  change IsChain d hd chain at hc
  cases hd with
  | none =>
    cases hc
    rfl
  | some i =>
    have hlen := IsChain_length_le d hc
    obtain ⟨j, hj, hlast⟩ := flaAux_chain d hc (d.length + 1) (by omega) i rfl
    have hstep : find_last_available (⟨d, some i, ln⟩ : Arena T) = Res.ok (some j) := by
      unfold find_last_available
      simp only [hj]
    rw [hstep, hlast]

/-- Witness for C9: a two-element free chain `0 → 1 → empty`; the walk
returns index 1. -/
theorem claim_C9_witness :
    find_last_available
        (⟨[Cell.Nothing (some 1), Cell.Nothing none, Cell.Just 7], some 0, 0⟩ : Arena Nat)
      = Res.ok ([0, 1].getLast?) :=
  claim_C9 (⟨[Cell.Nothing (some 1), Cell.Nothing none, Cell.Just 7], some 0, 0⟩ : Arena Nat)
    [0, 1] (IsChain.cons rfl (IsChain.cons rfl IsChain.nil))

/-- Claim C10: `remove` on an already-free or out-of-range handle returns
`None` and leaves the arena completely unchanged (same slots, same
free-list head, same occupied count, same capacity). -/
theorem claim_C10 (a : Arena T) (h : Handle)
    (hfree : a.data[h.idx]? = none ∨ ∃ l, a.data[h.idx]? = some (Cell.Nothing l)) :
    remove a h = Res.ok (none, a) :=
  remove_free a h hfree

/-- Witness for C10: an out-of-range handle and an already-free slot, on
concrete arenas. -/
theorem claim_C10_witness :
    remove (⟨[Cell.Just 4, Cell.Nothing none], some 1, 0⟩ : Arena Nat) ⟨5⟩
        = Res.ok (none, ⟨[Cell.Just 4, Cell.Nothing none], some 1, 0⟩) ∧
      remove (⟨[Cell.Just 4, Cell.Nothing none], some 1, 0⟩ : Arena Nat) ⟨1⟩
        = Res.ok (none, ⟨[Cell.Just 4, Cell.Nothing none], some 1, 0⟩) :=
  ⟨claim_C10 (⟨[Cell.Just 4, Cell.Nothing none], some 1, 0⟩ : Arena Nat) ⟨5⟩ (Or.inl rfl),
   claim_C10 (⟨[Cell.Just 4, Cell.Nothing none], some 1, 0⟩ : Arena Nat) ⟨1⟩
     (Or.inr ⟨none, rfl⟩)⟩

end Arena

end ITree
